import Mathlib

/-!
Verification of the workshop trace ingestion script (`workshop_trace_ingestion.py`).

The script replays a recorded corpus of traces and spans into an ingestion
sink, redistributing them over synthetic days.  This file gives a shallow
embedding of the parts of the script that the verified properties speak
about:

* `compute_scale_factor` (source lines 55-81),
* the per-thread layout loop of `upload_traces_for_day` (lines 124-149),
* the span replacement-id table and span rewriting (lines 172-233),
* the payload key filtering (lines 160-165 and 235-259).

Timestamps are modelled as rational numbers of seconds; the raw JSON
timestamp fields are modelled by `TsRaw`, which distinguishes a missing key,
a present falsy value, a present truthy but unparseable value, and a parsed
value (the `parse_datetime` helper of the script returns `None` exactly in
the first three cases when read through `.get`).
-/

namespace WorkshopIngestion

/-- Raw state of a timestamp field of a JSON record, as the script observes
it: `missing` = key absent; `falsy` = key present with a falsy value
(`None` or empty string); `bad` = key present and truthy but
`parse_datetime` fails on it; `good t` = key present, truthy, and parsed to
the absolute time `t` (seconds, UTC). -/
inductive TsRaw where
  | missing : TsRaw
  | falsy : TsRaw
  | bad : TsRaw
  | good : ℚ → TsRaw
deriving DecidableEq

/-- Model of `parse_datetime(record.get(field))` (source lines 42-52): a
missing key, a falsy value, and an unparseable value all yield `None`. -/
def parseTs : TsRaw → Option ℚ
  | .good t => some t
  | _ => none

/-- Model of a trace record: the fields of the corpus JSON that the script
reads.  `duration` is the desired duration in milliseconds; `none` means
the `duration` key is absent. -/
structure Trace where
  id : String
  thread_id : Option String
  start_time : TsRaw
  end_time : TsRaw
  duration : Option ℚ
deriving DecidableEq

/-- Model of `compute_scale_factor` (source lines 55-81): `1.0` when a
timestamp fails to parse or `duration_ms = trace.get('duration', 0)` is
falsy or the original span is non-positive, else
`desired_seconds / original_span_seconds`. -/
def compute_scale_factor (t : Trace) : ℚ :=
  match parseTs t.start_time, parseTs t.end_time with
  | some s, some e =>
    let duration_ms := t.duration.getD 0
    if duration_ms = 0 then 1
    else
      let original_span_seconds := e - s
      let desired_seconds := duration_ms / 1000
      if original_span_seconds ≤ 0 then 1
      else desired_seconds / original_span_seconds
  | _, _ => 1

/-- `desired_duration_s = trace_data_i.get('duration', 2500) / 1000.0`
(source line 138). -/
def desiredDur (t : Trace) : ℚ := t.duration.getD 2500 / 1000

/-- Model of the per-thread layout loop of `upload_traces_for_day`
(source lines 130-149): starting from the cursor `base` at loop index
`idx`, each trace gets `new_start = cursor` (preceded by a `gaps idx`
delay when `idx > 0`), `new_end = new_start + desiredDur`, and the cursor
moves to `new_end`.  The result pairs each trace with its new
`(start, end)`. -/
def layoutThread (gaps : ℕ → ℚ) : ℚ → ℕ → List Trace → List (Trace × ℚ × ℚ)
  | _, _, [] => []
  | base, idx, t :: ts =>
    let s := if idx = 0 then base else base + gaps idx
    let e := s + desiredDur t
    (t, s, e) :: layoutThread gaps e (idx + 1) ts

/-- Sort key of source line 125:
`parse_datetime(t.get('start_time')) or datetime.min`; `none` plays the
role of `datetime.min` (it sorts before every parsed time). -/
def sortKey (t : Trace) : Option ℚ := parseTs t.start_time

/-- Order on sort keys: `none` (standing for `datetime.min`) sorts before
everything. -/
def keyLE : Option ℚ → Option ℚ → Bool
  | none, _ => true
  | some _, none => false
  | some a, some b => decide (a ≤ b)

/-- Comparison by which a thread's traces are sorted (source line 125). -/
def traceLE (t u : Trace) : Prop := keyLE (sortKey t) (sortKey u) = true

instance : DecidableRel traceLE := fun t u => by unfold traceLE; infer_instance

instance : IsTotal Trace traceLE :=
  ⟨fun t u => by
    unfold traceLE keyLE
    cases sortKey t with
    | none => simp
    | some a =>
      cases sortKey u with
      | none => simp
      | some b =>
        rcases le_total a b with h | h
        · exact Or.inl (by simp [h])
        · exact Or.inr (by simp [h])⟩

theorem keyLE_trans {x y z : Option ℚ} (h1 : keyLE x y = true) (h2 : keyLE y z = true) :
    keyLE x z = true := by
  cases x with
  | none => rfl
  | some a =>
    cases y with
    | none => simp [keyLE] at h1
    | some b =>
      cases z with
      | none => simp [keyLE] at h2
      | some c =>
        simp only [keyLE, decide_eq_true_eq] at h1 h2 ⊢
        exact le_trans h1 h2

instance : IsTrans Trace traceLE := ⟨fun _ _ _ h1 h2 => keyLE_trans h1 h2⟩

/-- Stable sort of one thread's traces by original start time (source line
125); Python's `list.sort` is stable, as is insertion sort. -/
def sortTraces (ts : List Trace) : List Trace := List.insertionSort traceLE ts

/-- Relates two layout entries whose new start times are ordered. -/
def startLE (p q : Trace × ℚ × ℚ) : Prop := p.2.1 ≤ q.2.1

instance : IsTrans (Trace × ℚ × ℚ) startLE := ⟨fun _ _ _ => le_trans⟩

/-- Model of a span record: the fields of the corpus JSON that the script
reads. -/
structure Span where
  id : Option String
  trace_id : Option String
  parent_span_id : Option String
  start_time : TsRaw
  end_time : TsRaw
deriving DecidableEq

/-- State of a timestamp field of a submitted span payload: `absent` = key
not in the payload; `origFalsy` = the original falsy value passed through
untouched; `time t` = a rewritten datetime. -/
inductive PayloadTs where
  | absent : PayloadTs
  | origFalsy : PayloadTs
  | time : ℚ → PayloadTs
deriving DecidableEq

/-- The rewritten span payload fields the verified properties speak about. -/
structure SpanPayload where
  id : Option String
  parent_span_id : Option String
  start_time : PayloadTs
  end_time : PayloadTs
deriving DecidableEq

/-- First pass over a trace's spans (source lines 181-199): each span with
a truthy id (`if not span_id: continue` skips `None` and the empty string)
gets a fresh replacement id generated from its scaled start time (`genId`
abstracts `id_helpers.generate_id`, taking the timestamp passed to it and
the call count).  New entries are prepended to the table, so `List.lookup`
finds the most recent assignment first, matching Python dict overwrite
semantics. -/
def buildTable (genId : ℚ → ℕ → String) (origTraceStart newStart scale : ℚ) :
    List Span → ℕ → List (String × String) → List (String × String)
  | [], _, acc => acc
  | s :: ss, n, acc =>
    match s.id with
    | none => buildTable genId origTraceStart newStart scale ss n acc
    | some i =>
      if i.isEmpty then buildTable genId origTraceStart newStart scale ss n acc
      else
        let span_start := (parseTs s.start_time).getD origTraceStart
        let adjusted_span_start := newStart + (span_start - origTraceStart) * scale
        buildTable genId origTraceStart newStart scale ss (n + 1)
          ((i, genId adjusted_span_start n) :: acc)

/-- Second-pass rewrite of a span's `start_time` (source lines 211-221): a
missing key or present falsy value fails the guard
`'start_time' in span_dict and span_dict['start_time']` and is left
untouched; a truthy unparseable value falls back to the trace's new start;
a parsed value is placed at its scaled offset from the trace's new
start. -/
def rewriteStart (r : TsRaw) (newStart origTraceStart scale : ℚ) : PayloadTs :=
  match r with
  | .missing => .absent
  | .falsy => .origFalsy
  | .bad => .time newStart
  | .good t => .time (newStart + (t - origTraceStart) * scale)

/-- Second-pass rewrite of a span's `end_time` (source lines 223-233): as
for `start_time`, except the unparseable fallback is the trace's new
end. -/
def rewriteEnd (r : TsRaw) (newStart newEnd origTraceStart scale : ℚ) : PayloadTs :=
  match r with
  | .missing => .absent
  | .falsy => .origFalsy
  | .bad => .time newEnd
  | .good t => .time (newStart + (t - origTraceStart) * scale)

/-- Second pass over one span (source lines 202-233): spans without a
truthy id are skipped; otherwise `id` and `parent_span_id` are substituted
through the replacement table (`dict.get` returns `None` on an absent
entry) and the timestamps are rewritten. -/
def rewriteSpan (table : List (String × String)) (newStart newEnd origTraceStart scale : ℚ)
    (s : Span) : Option SpanPayload :=
  match s.id with
  | none => none
  | some i =>
    if i.isEmpty then none
    else
      some
        { id := table.lookup i
          parent_span_id := s.parent_span_id.bind fun p => table.lookup p
          start_time := rewriteStart s.start_time newStart origTraceStart scale
          end_time := rewriteEnd s.end_time newStart newEnd origTraceStart scale }

/-- The spans of the corpus belonging to one trace (source line 172). -/
def traceSpansOf (trace : Trace) (allSpans : List Span) : List Span :=
  allSpans.filter fun s => s.trace_id == some trace.id

/-- `original_trace_start` (source lines 175-179): the parsed original
trace start, falling back to the trace's new synthetic start time. -/
def origStartOf (trace : Trace) (newStart : ℚ) : ℚ :=
  (parseTs trace.start_time).getD newStart

/-- The replacement-id table of one replayed trace (source lines 181-199). -/
def tableOf (genId : ℚ → ℕ → String) (trace : Trace) (allSpans : List Span)
    (newStart : ℚ) : List (String × String) :=
  buildTable genId (origStartOf trace newStart) newStart (compute_scale_factor trace)
    (traceSpansOf trace allSpans) 0 []

/-- Rewrite of one span within its trace's replay (source lines 202-233),
through the trace's own table, boundaries, and single scale factor. -/
def rewriteInTrace (genId : ℚ → ℕ → String) (trace : Trace) (allSpans : List Span)
    (newStart newEnd : ℚ) (s : Span) : Option SpanPayload :=
  rewriteSpan (tableOf genId trace allSpans newStart) newStart newEnd
    (origStartOf trace newStart) (compute_scale_factor trace) s

/-- All span payloads submitted for one replayed trace (source lines
172-262). -/
def processTraceSpans (genId : ℚ → ℕ → String) (trace : Trace) (allSpans : List Span)
    (newStart newEnd : ℚ) : List SpanPayload :=
  (traceSpansOf trace allSpans).filterMap (rewriteInTrace genId trace allSpans newStart newEnd)

/-- The trace fields popped before submission (source lines 161-162). -/
def denyList : List String :=
  ["feedback_scores", "duration", "project_id", "span_count", "llm_span_count"]

/-- The keys `span()` accepts (source lines 240-257). -/
def allowedKeys : List String :=
  ["id", "parent_span_id", "name", "type", "start_time", "end_time", "metadata",
   "input", "output", "tags", "usage", "model", "provider", "error_info",
   "total_cost", "attachments"]

/-- Dict key assignment at key level: adds the key if not already present. -/
def addKey (k : String) (l : List String) : List String :=
  if k ∈ l then l else l ++ [k]

/-- `dict.pop(k, None)` / `del dict[k]` at key level. -/
def removeKey (k : String) (l : List String) : List String :=
  l.filter fun x => x != k

/-- Key set of a submitted trace payload (source lines 131, 155-165):
`id`, `start_time`, `end_time`, `thread_id` are assigned, the deny-listed
keys popped, and `project_name` assigned. -/
def tracePayloadKeys (origKeys : List String) : List String :=
  addKey "project_name"
    (denyList.foldl (fun l k => removeKey k l)
      (addKey "thread_id" (addKey "end_time" (addKey "start_time" (addKey "id" origKeys)))))

/-- Key set of a submitted span payload (source lines 203-259): `id` and
`parent_span_id` are assigned, `duration` deleted, and the result filtered
to the allow-list. -/
def spanPayloadKeys (origKeys : List String) : List String :=
  (removeKey "duration" (addKey "parent_span_id" (addKey "id" origKeys))).filter
    fun x => decide (x ∈ allowedKeys)

end WorkshopIngestion

namespace WorkshopIngestion

/-- C5 --- `compute_scale_factor` on a trace whose timestamps parse, whose
`duration` is a present positive number of milliseconds, and whose original
span `e - s` is strictly positive, returns `(duration_ms / 1000) / (e - s)`. -/
theorem scale_factor_formula (t : Trace) (s e d : ℚ)
    (hs : parseTs t.start_time = some s) (he : parseTs t.end_time = some e)
    (hd : t.duration = some d) (hdpos : 0 < d) (hspan : s < e) :
    compute_scale_factor t = (d / 1000) / (e - s) := by
  unfold compute_scale_factor
  rw [hs, he, hd]
  simp only [Option.getD_some]
  rw [if_neg (ne_of_gt hdpos), if_neg (not_le.mpr (sub_pos.mpr hspan))]

/-- Witness for C5: the spec's own scenario, a trace with original window
`[0, 100]` and `duration = 50000` ms has scale factor `1/2`. -/
theorem scale_factor_formula_witness :
    compute_scale_factor ⟨"t1", none, .good 0, .good 100, some 50000⟩
      = (50000 / 1000) / (100 - 0) :=
  scale_factor_formula _ 0 100 50000 rfl rfl rfl (by norm_num) (by norm_num)

/-- C6 (counterexample) --- the claim says `compute_scale_factor` returns
exactly `1.0` whenever `duration <= 0`; but a present negative duration is
truthy in Python, passes every guard, and yields a negative scale: a trace
with window `[0, 10]` and `duration = -5000` ms gets scale `-1/2`, not `1`. -/
theorem scale_identity_counterexample :
    compute_scale_factor ⟨"t1", none, .good 0, .good 10, some (-5000)⟩ = -(1/2) ∧
    compute_scale_factor ⟨"t1", none, .good 0, .good 10, some (-5000)⟩ ≠ 1 := by
  constructor <;> norm_num [compute_scale_factor, parseTs]

/-- C6 (amended) --- `compute_scale_factor` returns exactly `1` whenever
`start_time` or `end_time` is missing/falsy/unparseable, or the `duration`
read through `.get('duration', 0)` is zero or absent, or the original span
`e - s` is non-positive.  (A present negative duration is NOT an identity
case.) -/
theorem scale_identity_amended (t : Trace)
    (h : parseTs t.start_time = none ∨ parseTs t.end_time = none ∨
         t.duration.getD 0 = 0 ∨
         ∃ s e, parseTs t.start_time = some s ∧ parseTs t.end_time = some e ∧ e ≤ s) :
    compute_scale_factor t = 1 := by
  unfold compute_scale_factor
  rcases h with h | h | h | ⟨s, e, hs, he, hle⟩
  · rw [h]
  · rw [h]
    cases parseTs t.start_time <;> rfl
  · cases hs : parseTs t.start_time with
    | none => rfl
    | some s =>
      cases he : parseTs t.end_time with
      | none => rfl
      | some e => simp [h]
  · rw [hs, he]
    simp only
    split
    · rfl
    · rw [if_pos (sub_nonpos.mpr hle)]

/-- Witness for C6 (amended): a trace with no parseable `start_time` gets
scale `1`. -/
theorem scale_identity_amended_witness :
    compute_scale_factor ⟨"t1", none, .missing, .good 10, some 4000⟩ = 1 :=
  scale_identity_amended _ (Or.inl rfl)

end WorkshopIngestion

namespace WorkshopIngestion

/-- Helper: the traces carried by the layout are the input list, in order. -/
theorem layout_map_fst (gaps : ℕ → ℚ) (l : List Trace) :
    ∀ (base : ℚ) (idx : ℕ), (layoutThread gaps base idx l).map Prod.fst = l := by
  induction l with
  | nil => intro _ _; rfl
  | cons t ts ih => intro base idx; simp only [layoutThread, List.map_cons, ih]

/-- Helper: the layout has one entry per trace. -/
theorem layout_length (gaps : ℕ → ℚ) (l : List Trace) (base : ℚ) (idx : ℕ) :
    (layoutThread gaps base idx l).length = l.length := by
  conv_rhs => rw [← layout_map_fst gaps l base idx]
  rw [List.length_map]

/-- Helper: the trace at position `i` of the layout is the input trace at
position `i`. -/
theorem layout_get_fst (gaps : ℕ → ℚ) (l : List Trace) :
    ∀ (base : ℚ) (idx i : ℕ) (hi : i < (layoutThread gaps base idx l).length)
      (hl : i < l.length),
      (layoutThread gaps base idx l)[i].1 = l[i] := by
  induction l with
  | nil => intro _ _ i hi _; simp [layoutThread] at hi
  | cons t ts ih =>
    intro base idx i hi hl
    cases i with
    | zero => simp [layoutThread]
    | succ n =>
      have hi' : n < (layoutThread gaps ((if idx = 0 then base else base + gaps idx) + desiredDur t) (idx + 1) ts).length := by
        simp only [layoutThread, List.length_cons] at hi
        omega
      have hl' : n < ts.length := by
        simp only [List.length_cons] at hl
        omega
      simpa only [layoutThread, List.getElem_cons_succ] using ih _ (idx + 1) n hi' hl'

/-- Helper: each layout entry's new end is its new start plus the desired
duration of its trace (source line 146). -/
theorem layout_get_end (gaps : ℕ → ℚ) (l : List Trace) :
    ∀ (base : ℚ) (idx i : ℕ) (hi : i < (layoutThread gaps base idx l).length),
      (layoutThread gaps base idx l)[i].2.2
        = (layoutThread gaps base idx l)[i].2.1
          + desiredDur (layoutThread gaps base idx l)[i].1 := by
  induction l with
  | nil => intro _ _ i hi; simp [layoutThread] at hi
  | cons t ts ih =>
    intro base idx i hi
    cases i with
    | zero => simp [layoutThread]
    | succ n =>
      have hi' : n < (layoutThread gaps ((if idx = 0 then base else base + gaps idx) + desiredDur t) (idx + 1) ts).length := by
        simp only [layoutThread, List.length_cons] at hi
        omega
      simpa only [layoutThread, List.getElem_cons_succ] using ih _ (idx + 1) n hi'

/-- Helper: the new start of the `(i+1)`-st layout entry is the new end of
the `i`-th plus the random inter-trace gap (source lines 141-145). -/
theorem layout_get_succ_start (gaps : ℕ → ℚ) (l : List Trace) :
    ∀ (base : ℚ) (idx i : ℕ) (hi : i < (layoutThread gaps base idx l).length)
      (hj : i + 1 < (layoutThread gaps base idx l).length),
      (layoutThread gaps base idx l)[i + 1].2.1
        = (layoutThread gaps base idx l)[i].2.2 + gaps (idx + i + 1) := by
  induction l with
  | nil => intro _ _ i hi _; simp [layoutThread] at hi
  | cons t ts ih =>
    intro base idx i hi hj
    cases ts with
    | nil => simp [layoutThread] at hj
    | cons u us =>
      cases i with
      | zero =>
        simp [layoutThread]
      | succ n =>
        have hi' : n < (layoutThread gaps ((if idx = 0 then base else base + gaps idx) + desiredDur t) (idx + 1) (u :: us)).length := by
          simp only [layoutThread, List.length_cons] at hi ⊢
          omega
        have hj' : n + 1 < (layoutThread gaps ((if idx = 0 then base else base + gaps idx) + desiredDur t) (idx + 1) (u :: us)).length := by
          simp only [layoutThread, List.length_cons] at hj ⊢
          omega
        have := ih _ (idx + 1) n hi' hj'
        have harg : idx + 1 + n + 1 = idx + (n + 1) + 1 := by omega
        simpa only [layoutThread, List.getElem_cons_succ, harg] using this

/-- Helper: consecutive layout entries never overlap, given nonnegative
gaps: each entry's new end is at most the next entry's new start. -/
theorem layout_chain_nonoverlap (gaps : ℕ → ℚ) (h0 : ∀ n, 0 ≤ gaps n) (l : List Trace) :
    ∀ (base : ℚ) (idx : ℕ),
      List.Chain' (fun p q : Trace × ℚ × ℚ => p.2.2 ≤ q.2.1)
        (layoutThread gaps base idx l) := by
  induction l with
  | nil => intro _ _; exact List.chain'_nil
  | cons t ts ih =>
    intro base idx
    cases ts with
    | nil => exact List.chain'_singleton _
    | cons u us =>
      simp only [layoutThread]
      refine List.Chain'.cons' ?_ ?_
      · exact ih _ (idx + 1)
      · intro b hb
        simp only [layoutThread, List.head?_cons, Option.mem_def, Option.some.injEq] at hb
        rcases hb.symm with rfl
        simp only [Nat.add_eq_zero, Nat.succ_ne_zero, and_false, if_false]
        exact le_add_of_nonneg_right (h0 (idx + 1))

/-- Helper: new start times never decrease along the layout, as long as
every trace's desired duration is nonnegative and gaps are nonnegative. -/
theorem layout_chain_start_mono (gaps : ℕ → ℚ) (h0 : ∀ n, 0 ≤ gaps n) (l : List Trace) :
    ∀ (base : ℚ) (idx : ℕ), (∀ t ∈ l, 0 ≤ desiredDur t) →
      List.Chain' startLE (layoutThread gaps base idx l) := by
  induction l with
  | nil => intro _ _ _; exact List.chain'_nil
  | cons t ts ih =>
    intro base idx hd
    cases ts with
    | nil => exact List.chain'_singleton _
    | cons u us =>
      simp only [layoutThread]
      refine List.Chain'.cons' ?_ ?_
      · exact ih _ (idx + 1) fun x hx => hd x (List.mem_cons_of_mem _ hx)
      · intro b hb
        simp only [layoutThread, List.head?_cons, Option.mem_def, Option.some.injEq] at hb
        rcases hb.symm with rfl
        have hdt : 0 ≤ desiredDur t := hd t (List.mem_cons_self _ _)
        have hgap := h0 (idx + 1)
        unfold startLE
        simp only [Nat.add_eq_zero, Nat.succ_ne_zero, and_false, if_false]
        linarith

/-- C1 --- within one thread's replay, consecutive traces never overlap:
each layout entry's new end time is at most the next entry's new start
time, where the new start is the cursor (advanced by a 30-180 second gap
before each non-first trace), and the new end is start plus
`duration_ms/1000` seconds (source lines 130-149). -/
theorem trace_non_overlap (gaps : ℕ → ℚ) (base : ℚ) (ts : List Trace)
    (hg : ∀ n, (30:ℚ) ≤ gaps n ∧ gaps n ≤ 180) :
    List.Chain' (fun p q : Trace × ℚ × ℚ => p.2.2 ≤ q.2.1)
        (layoutThread gaps base 0 (sortTraces ts)) ∧
    ∀ (i : ℕ) (hi : i < (layoutThread gaps base 0 (sortTraces ts)).length) (d : ℚ),
      (layoutThread gaps base 0 (sortTraces ts))[i].1.duration = some d →
      (layoutThread gaps base 0 (sortTraces ts))[i].2.2
        = (layoutThread gaps base 0 (sortTraces ts))[i].2.1 + d / 1000 := by
  constructor
  · exact layout_chain_nonoverlap gaps
      (fun n => le_trans (by norm_num) (hg n).1) (sortTraces ts) base 0
  · intro i hi d hdur
    have h := layout_get_end gaps (sortTraces ts) base 0 i hi
    rw [h, desiredDur, hdur, Option.getD_some]

/-- Witness for C1: a concrete two-trace thread with constant 30 second
gaps satisfies the non-overlap chain. -/
theorem trace_non_overlap_witness :
    List.Chain' (fun p q : Trace × ℚ × ℚ => p.2.2 ≤ q.2.1)
        (layoutThread (fun _ => 30) 0 0 (sortTraces
          [⟨"a", none, .good 0, .good 10, some 2000⟩,
           ⟨"b", none, .good 5, .good 20, some 3000⟩])) :=
  (trace_non_overlap (fun _ => 30) 0 _ (fun _ => by norm_num)).1

end WorkshopIngestion

namespace WorkshopIngestion

/-- C2 (counterexample) --- the claim asserts replayed start times are
non-decreasing for every pair of same-thread traces with original
`t1 < t2`; but a trace with a large negative `duration` moves the cursor
backwards past the 30-180 second gap.  With traces at original starts 0
and 10 and the first trace carrying `duration = -1000000` ms, the first
replayed start is 0 while the second is -970 < 0. -/
theorem order_preservation_counterexample :
    parseTs ((layoutThread (fun _ => 30) 0 0 (sortTraces
        [⟨"a", none, .good 0, .good 1, some (-1000000)⟩,
         ⟨"b", none, .good 10, .good 20, some 2500⟩])).get ⟨0, by decide⟩).1.start_time
      = some 0 ∧
    parseTs ((layoutThread (fun _ => 30) 0 0 (sortTraces
        [⟨"a", none, .good 0, .good 1, some (-1000000)⟩,
         ⟨"b", none, .good 10, .good 20, some 2500⟩])).get ⟨1, by decide⟩).1.start_time
      = some 10 ∧
    (0:ℚ) < 10 ∧
    ((layoutThread (fun _ => 30) 0 0 (sortTraces
        [⟨"a", none, .good 0, .good 1, some (-1000000)⟩,
         ⟨"b", none, .good 10, .good 20, some 2500⟩])).get ⟨1, by decide⟩).2.1
      < ((layoutThread (fun _ => 30) 0 0 (sortTraces
        [⟨"a", none, .good 0, .good 1, some (-1000000)⟩,
         ⟨"b", none, .good 10, .good 20, some 2500⟩])).get ⟨0, by decide⟩).2.1 := by
  refine ⟨?_, ?_, by norm_num, ?_⟩ <;>
    norm_num [sortTraces, layoutThread, List.insertionSort, List.orderedInsert,
      traceLE, keyLE, sortKey, parseTs, desiredDur]

end WorkshopIngestion

namespace WorkshopIngestion

/-- C2 (amended) --- within one thread's replay the emitted order is the
stable sort by original `start_time` (a permutation of the thread's
traces), and PROVIDED every trace's desired duration
(`duration/1000` seconds, defaulting to 2.5 s) is nonnegative, any two
traces whose original start times satisfy `t1 < t2` get replayed start
times `t1' ≤ t2'`.  (Without the nonnegativity proviso a large negative
`duration` can pull the cursor backwards past the 30-180 s gap.) -/
theorem order_preservation (gaps : ℕ → ℚ) (base : ℚ) (ts : List Trace)
    (hg : ∀ n, (30:ℚ) ≤ gaps n ∧ gaps n ≤ 180)
    (hd : ∀ t ∈ ts, 0 ≤ desiredDur t) :
    List.Perm (sortTraces ts) ts ∧
    ∀ (i j : ℕ) (hi : i < (layoutThread gaps base 0 (sortTraces ts)).length)
      (hj : j < (layoutThread gaps base 0 (sortTraces ts)).length) (t1 t2 : ℚ),
      parseTs ((layoutThread gaps base 0 (sortTraces ts))[i].1.start_time) = some t1 →
      parseTs ((layoutThread gaps base 0 (sortTraces ts))[j].1.start_time) = some t2 →
      t1 < t2 →
      (layoutThread gaps base 0 (sortTraces ts))[i].2.1
        ≤ (layoutThread gaps base 0 (sortTraces ts))[j].2.1 := by
  have hperm : List.Perm (sortTraces ts) ts := List.perm_insertionSort _ _
  refine ⟨hperm, ?_⟩
  intro i j hi hj t1 t2 h1 h2 hlt
  have hlen : (layoutThread gaps base 0 (sortTraces ts)).length = (sortTraces ts).length :=
    layout_length gaps _ base 0
  have hiL : i < (sortTraces ts).length := hlen ▸ hi
  have hjL : j < (sortTraces ts).length := hlen ▸ hj
  have hfi : (layoutThread gaps base 0 (sortTraces ts))[i].1 = (sortTraces ts)[i] :=
    layout_get_fst gaps _ base 0 i hi hiL
  have hfj : (layoutThread gaps base 0 (sortTraces ts))[j].1 = (sortTraces ts)[j] :=
    layout_get_fst gaps _ base 0 j hj hjL
  have hij : i < j := by
    rcases lt_trichotomy i j with h | h | h
    · exact h
    · exfalso
      subst h
      rw [h1] at h2
      exact absurd (Option.some.inj h2) (ne_of_lt hlt)
    · exfalso
      have hs : List.Sorted traceLE (sortTraces ts) := List.sorted_insertionSort traceLE ts
      have hrel : traceLE (sortTraces ts)[j] (sortTraces ts)[i] := by
        simpa [List.get_eq_getElem] using
          hs.rel_get_of_lt (a := ⟨j, hjL⟩) (b := ⟨i, hiL⟩) h
      unfold traceLE sortKey at hrel
      rw [← hfj, ← hfi, h2, h1] at hrel
      simp only [keyLE, decide_eq_true_eq] at hrel
      linarith
  have h0 : ∀ n, (0:ℚ) ≤ gaps n := fun n => le_trans (by norm_num) (hg n).1
  have hdL : ∀ t ∈ sortTraces ts, 0 ≤ desiredDur t := fun t ht => hd t (hperm.mem_iff.mp ht)
  have hpair : List.Pairwise startLE (layoutThread gaps base 0 (sortTraces ts)) :=
    List.chain'_iff_pairwise.mp (layout_chain_start_mono gaps h0 (sortTraces ts) base 0 hdL)
  have := List.pairwise_iff_get.mp hpair ⟨i, hi⟩ ⟨j, hj⟩ hij
  simpa [startLE, List.get_eq_getElem] using this

/-- Witness for C2 (amended): two traces with original starts 0 < 10 and
nonnegative durations keep their replayed starts ordered. -/
theorem order_preservation_witness :
    (layoutThread (fun _ => 30) 0 0 (sortTraces
        [⟨"a", none, .good 0, .good 1, some 1000⟩,
         ⟨"b", none, .good 10, .good 20, some 2000⟩])).get ⟨0, by decide⟩ |>.2.1
      ≤ ((layoutThread (fun _ => 30) 0 0 (sortTraces
        [⟨"a", none, .good 0, .good 1, some 1000⟩,
         ⟨"b", none, .good 10, .good 20, some 2000⟩])).get ⟨1, by decide⟩).2.1 := by
  have h := order_preservation (fun _ => 30) 0
    [⟨"a", none, .good 0, .good 1, some 1000⟩,
     ⟨"b", none, .good 10, .good 20, some 2000⟩]
    (fun _ => by norm_num)
    (by intro t ht
        simp only [List.mem_cons, List.not_mem_nil, or_false] at ht
        rcases ht with rfl | rfl <;> norm_num [desiredDur])
  have h2 := h.2 0 1 (by decide) (by decide) 0 10 (by decide) (by decide) (by norm_num)
  simpa [List.get_eq_getElem] using h2

end WorkshopIngestion

namespace WorkshopIngestion

/-- C10 (counterexample) --- the claim says an absent OR ZERO `duration`
yields the 2500 ms default; but `trace_data_i.get('duration', 2500)`
defaults only when the key is absent: a trace with a present
`duration = 0` gets new end = new start (100 = 100), not start + 2.5. -/
theorem default_duration_counterexample :
    ((layoutThread (fun _ => 30) 100 0
        [⟨"a", none, .missing, .missing, some 0⟩]).get ⟨0, by decide⟩).2.1 = 100 ∧
    ((layoutThread (fun _ => 30) 100 0
        [⟨"a", none, .missing, .missing, some 0⟩]).get ⟨0, by decide⟩).2.2 = 100 ∧
    (100:ℚ) ≠ 100 + 5/2 := by
  refine ⟨?_, ?_, by norm_num⟩ <;> norm_num [layoutThread, desiredDur]

/-- C10 (amended) --- only when a replayed trace's `duration` KEY IS
ABSENT does the hard-coded default of 2500 ms apply: its new end is then
its new start plus exactly 2.5 seconds, and it is this end (not the
original `end_time - start_time` span) to which the thread's cursor
advances, the next trace starting at that end plus the random gap.  (A
present zero duration instead gives new end = new start.) -/
theorem default_duration_applies (gaps : ℕ → ℚ) (base : ℚ) (l : List Trace)
    (i : ℕ) (hi : i < (layoutThread gaps base 0 l).length)
    (hnone : (layoutThread gaps base 0 l)[i].1.duration = none) :
    (layoutThread gaps base 0 l)[i].2.2
      = (layoutThread gaps base 0 l)[i].2.1 + 5/2 ∧
    ∀ (hj : i + 1 < (layoutThread gaps base 0 l).length),
      (layoutThread gaps base 0 l)[i + 1].2.1
        = (layoutThread gaps base 0 l)[i].2.2 + gaps (i + 1) := by
  constructor
  · have h := layout_get_end gaps l base 0 i hi
    rw [h, desiredDur, hnone]
    norm_num
  · intro hj
    have h := layout_get_succ_start gaps l base 0 i hi hj
    simpa using h

/-- Witness for C10 (amended): a single trace with no `duration` key,
laid out at cursor 100, ends at 102.5; a second trace then starts at
102.5 + 30. -/
theorem default_duration_applies_witness :
    (layoutThread (fun _ => 30) 100 0
        [⟨"a", none, .missing, .missing, none⟩,
         ⟨"b", none, .missing, .missing, some 1000⟩]).get ⟨0, by decide⟩ |>.2.2
      = ((layoutThread (fun _ => 30) 100 0
        [⟨"a", none, .missing, .missing, none⟩,
         ⟨"b", none, .missing, .missing, some 1000⟩]).get ⟨0, by decide⟩).2.1 + 5/2 := by
  have h := default_duration_applies (fun _ => 30) 100
    [⟨"a", none, .missing, .missing, none⟩,
     ⟨"b", none, .missing, .missing, some 1000⟩] 0 (by decide) (by decide)
  simpa [List.get_eq_getElem] using h.1

end WorkshopIngestion

namespace WorkshopIngestion

/-- Helper: `buildTable` never loses a key that the accumulator already
resolves. -/
theorem lookup_buildTable_of_acc (genId : ℚ → ℕ → String) (oTS nS sc : ℚ) (i : String) :
    ∀ (spans : List Span) (n : ℕ) (acc : List (String × String)),
      (acc.lookup i).isSome = true →
      ((buildTable genId oTS nS sc spans n acc).lookup i).isSome = true := by
  intro spans
  induction spans with
  | nil => intro n acc h; exact h
  | cons s ss ih =>
    intro n acc h
    cases hid : s.id with
    | none =>
      simp only [buildTable, hid]
      exact ih n acc h
    | some j =>
      cases hje : j.isEmpty with
      | true =>
        simp only [buildTable, hid, hje, if_true]
        exact ih n acc h
      | false =>
        simp only [buildTable, hid, hje, Bool.false_eq_true, if_false]
        refine ih (n + 1) _ ?_
        cases hij : i == j with
        | true => simp [List.lookup, hij]
        | false => simpa [List.lookup, hij] using h

/-- Helper: every span of the trace with a truthy id has an entry in the
replacement-id table built by the first pass. -/
theorem lookup_buildTable_of_mem (genId : ℚ → ℕ → String) (oTS nS sc : ℚ) (i : String) :
    ∀ (spans : List Span) (n : ℕ) (acc : List (String × String)) (B : Span),
      B ∈ spans → B.id = some i → i.isEmpty = false →
      ((buildTable genId oTS nS sc spans n acc).lookup i).isSome = true := by
  intro spans
  induction spans with
  | nil => intro n acc B hB _ _; simp at hB
  | cons s ss ih =>
    intro n acc B hB hBid hne
    rcases List.mem_cons.mp hB with rfl | hB'
    · simp only [buildTable, hBid, hne, Bool.false_eq_true, if_false]
      refine lookup_buildTable_of_acc genId oTS nS sc i ss (n + 1) _ ?_
      simp [List.lookup]
    · cases hid : s.id with
      | none =>
        simp only [buildTable, hid]
        exact ih n acc B hB' hBid hne
      | some j =>
        cases hje : j.isEmpty with
        | true =>
          simp only [buildTable, hid, hje, if_true]
          exact ih n acc B hB' hBid hne
        | false =>
          simp only [buildTable, hid, hje, Bool.false_eq_true, if_false]
          exact ih (n + 1) _ B hB' hBid hne

/-- C3 --- parent linkage survives the identifier remapping: for spans A
and B of the same replayed trace, both with truthy original ids, if A's
original `parent_span_id` equals B's original `id`, then A's rewritten
`parent_span_id` equals B's rewritten `id`, and that rewritten id is
present (the per-trace table built over all the trace's spans in the first
pass resolves it); A's rewritten payload is among the submitted span
payloads of the trace. -/
theorem parent_linkage (genId : ℚ → ℕ → String) (trace : Trace) (allSpans : List Span)
    (newStart newEnd : ℚ) (A B : Span) (iA iB : String)
    (hA : A ∈ allSpans) (hB : B ∈ allSpans)
    (hAt : A.trace_id = some trace.id) (hBt : B.trace_id = some trace.id)
    (hAid : A.id = some iA) (hAne : iA.isEmpty = false)
    (hBid : B.id = some iB) (hBne : iB.isEmpty = false)
    (hlink : A.parent_span_id = some iB) :
    (rewriteInTrace genId trace allSpans newStart newEnd A).map SpanPayload.parent_span_id
      = (rewriteInTrace genId trace allSpans newStart newEnd B).map SpanPayload.id ∧
    (rewriteInTrace genId trace allSpans newStart newEnd B).map (fun p => p.id.isSome)
      = some true ∧
    ∀ p, rewriteInTrace genId trace allSpans newStart newEnd A = some p →
      p ∈ processTraceSpans genId trace allSpans newStart newEnd := by
  have hBmem : B ∈ traceSpansOf trace allSpans := by
    simp only [traceSpansOf, List.mem_filter]
    exact ⟨hB, by simp [hBt]⟩
  have hAmem : A ∈ traceSpansOf trace allSpans := by
    simp only [traceSpansOf, List.mem_filter]
    exact ⟨hA, by simp [hAt]⟩
  have hsome : (((tableOf genId trace allSpans newStart).lookup iB).isSome) = true :=
    lookup_buildTable_of_mem genId (origStartOf trace newStart) newStart
      (compute_scale_factor trace) iB (traceSpansOf trace allSpans) 0 [] B hBmem hBid hBne
  refine ⟨?_, ?_, ?_⟩
  · unfold rewriteInTrace rewriteSpan
    rw [hAid, hBid]
    simp [hAne, hBne, hlink]
  · unfold rewriteInTrace rewriteSpan
    rw [hBid]
    simp only [hBne, Bool.false_eq_true, if_false]
    simpa using hsome
  · intro p hp
    exact List.mem_filterMap.mpr ⟨A, hAmem, hp⟩

end WorkshopIngestion

namespace WorkshopIngestion

/-- C4 --- offset linearity: for every span of a replayed trace whose own
`start_time` (resp. `end_time`) parses to `t`, the rewritten timestamp is
the trace's new start plus `(t - original_trace_start)` multiplied by the
trace's single scale factor, and the rewritten payload is among the
submitted span payloads; the same `compute_scale_factor trace` is applied
to both endpoints of every span of the trace. -/
theorem span_offset_linearity (genId : ℚ → ℕ → String) (trace : Trace)
    (allSpans : List Span) (newStart newEnd : ℚ) (s : Span) (i : String)
    (hmem : s ∈ allSpans) (ht : s.trace_id = some trace.id)
    (hid : s.id = some i) (hne : i.isEmpty = false) :
    (∀ t : ℚ, s.start_time = .good t →
      (rewriteInTrace genId trace allSpans newStart newEnd s).map SpanPayload.start_time
        = some (.time (newStart
            + (t - origStartOf trace newStart) * compute_scale_factor trace))) ∧
    (∀ u : ℚ, s.end_time = .good u →
      (rewriteInTrace genId trace allSpans newStart newEnd s).map SpanPayload.end_time
        = some (.time (newStart
            + (u - origStartOf trace newStart) * compute_scale_factor trace))) ∧
    ∀ p, rewriteInTrace genId trace allSpans newStart newEnd s = some p →
      p ∈ processTraceSpans genId trace allSpans newStart newEnd := by
  have hsmem : s ∈ traceSpansOf trace allSpans := by
    simp only [traceSpansOf, List.mem_filter]
    exact ⟨hmem, by simp [ht]⟩
  refine ⟨?_, ?_, ?_⟩
  · intro t htt
    unfold rewriteInTrace rewriteSpan
    rw [hid]
    simp [hne, rewriteStart, htt]
  · intro u huu
    unfold rewriteInTrace rewriteSpan
    rw [hid]
    simp [hne, rewriteEnd, huu]
  · intro p hp
    exact List.mem_filterMap.mpr ⟨s, hsmem, hp⟩

/-- Witness for C4: the spec's scenario --- trace with original window
`[0, 100]` and `duration = 50000` ms (scale `1/2`), span at original
offset 40 s, trace replayed at new start 1000: the span lands at
1000 + 40 * (1/2) = 1020, i.e. offset 20 s from the new start. -/
theorem span_offset_linearity_witness :
    (rewriteInTrace (fun _ _ => "n0") ⟨"tr", none, .good 0, .good 100, some 50000⟩
        [⟨some "s1", some "tr", none, .good 40, .good 90⟩] 1000 1050
        ⟨some "s1", some "tr", none, .good 40, .good 90⟩).map SpanPayload.start_time
      = some (.time 1020) := by
  have h := (span_offset_linearity (fun _ _ => "n0")
      ⟨"tr", none, .good 0, .good 100, some 50000⟩
      [⟨some "s1", some "tr", none, .good 40, .good 90⟩] 1000 1050
      ⟨some "s1", some "tr", none, .good 40, .good 90⟩ "s1"
      (List.mem_singleton.mpr rfl) rfl rfl rfl).1 40 rfl
  rw [h]
  norm_num [origStartOf, compute_scale_factor, parseTs]

/-- C8 (counterexample) --- the claim says a span whose own `start_time`
is MISSING gets the trace's new start as its rewritten `start_time`; in
fact the guard `if 'start_time' in span_dict and span_dict['start_time']`
skips a missing key entirely, so the submitted payload simply has no
`start_time` at all (here the trace's new start is 500). -/
theorem span_fallback_counterexample :
    (rewriteInTrace (fun _ _ => "n0") ⟨"tr", none, .good 0, .good 10, some 1000⟩
        [⟨some "s1", some "tr", none, .missing, .missing⟩] 500 501
        ⟨some "s1", some "tr", none, .missing, .missing⟩).map SpanPayload.start_time
      = some .absent ∧
    (rewriteInTrace (fun _ _ => "n0") ⟨"tr", none, .good 0, .good 10, some 1000⟩
        [⟨some "s1", some "tr", none, .missing, .missing⟩] 500 501
        ⟨some "s1", some "tr", none, .missing, .missing⟩).map SpanPayload.start_time
      ≠ some (.time 500) := by
  have h1 : (rewriteInTrace (fun _ _ => "n0") ⟨"tr", none, .good 0, .good 10, some 1000⟩
      [⟨some "s1", some "tr", none, .missing, .missing⟩] 500 501
      ⟨some "s1", some "tr", none, .missing, .missing⟩).map SpanPayload.start_time
      = some PayloadTs.absent := rfl
  refine ⟨h1, ?_⟩
  rw [h1]
  simp

/-- C8 (amended) --- the fallback to the trace's new start (resp. new end)
applies exactly when a span's own timestamp is present and truthy but
UNPARSEABLE; a missing timestamp key is left out of the payload untouched
(and a present falsy value is passed through unchanged), it does NOT
default to the trace boundary. -/
theorem span_fallback_amended (genId : ℚ → ℕ → String) (trace : Trace)
    (allSpans : List Span) (newStart newEnd : ℚ) (s : Span) (i : String)
    (hid : s.id = some i) (hne : i.isEmpty = false) :
    (s.start_time = .bad →
      (rewriteInTrace genId trace allSpans newStart newEnd s).map SpanPayload.start_time
        = some (.time newStart)) ∧
    (s.end_time = .bad →
      (rewriteInTrace genId trace allSpans newStart newEnd s).map SpanPayload.end_time
        = some (.time newEnd)) ∧
    (s.start_time = .missing →
      (rewriteInTrace genId trace allSpans newStart newEnd s).map SpanPayload.start_time
        = some .absent) ∧
    (s.end_time = .missing →
      (rewriteInTrace genId trace allSpans newStart newEnd s).map SpanPayload.end_time
        = some .absent) ∧
    (s.start_time = .falsy →
      (rewriteInTrace genId trace allSpans newStart newEnd s).map SpanPayload.start_time
        = some .origFalsy) ∧
    (s.end_time = .falsy →
      (rewriteInTrace genId trace allSpans newStart newEnd s).map SpanPayload.end_time
        = some .origFalsy) := by
  refine ⟨?_, ?_, ?_, ?_, ?_, ?_⟩ <;>
    (intro hts
     unfold rewriteInTrace rewriteSpan
     rw [hid]
     simp [hne, rewriteStart, rewriteEnd, hts])

/-- Witness for C8 (amended): a span with a present but unparseable
`start_time` falls back to the trace's new start 500. -/
theorem span_fallback_amended_witness :
    (rewriteInTrace (fun _ _ => "n0") ⟨"tr", none, .good 0, .good 10, some 1000⟩
        [⟨some "s1", some "tr", none, .bad, .bad⟩] 500 501
        ⟨some "s1", some "tr", none, .bad, .bad⟩).map SpanPayload.start_time
      = some (.time 500) :=
  (span_fallback_amended (fun _ _ => "n0") ⟨"tr", none, .good 0, .good 10, some 1000⟩
      [⟨some "s1", some "tr", none, .bad, .bad⟩] 500 501
      ⟨some "s1", some "tr", none, .bad, .bad⟩ "s1" rfl rfl).1 rfl

/-- C9 --- a rewritten span whose original `parent_span_id` has no entry
in the trace's replacement-id table gets `parent_span_id = None` in its
payload: it is never left pointing at the stale original identifier. -/
theorem stale_parent_nulled (genId : ℚ → ℕ → String) (trace : Trace)
    (allSpans : List Span) (newStart newEnd : ℚ) (s : Span) (i pid : String)
    (hid : s.id = some i) (hne : i.isEmpty = false)
    (hp : s.parent_span_id = some pid)
    (hnone : (tableOf genId trace allSpans newStart).lookup pid = none) :
    (rewriteInTrace genId trace allSpans newStart newEnd s).map SpanPayload.parent_span_id
      = some none ∧
    (rewriteInTrace genId trace allSpans newStart newEnd s).map SpanPayload.parent_span_id
      ≠ some (some pid) := by
  have hmain : (rewriteInTrace genId trace allSpans newStart newEnd s).map
      SpanPayload.parent_span_id = some none := by
    unfold rewriteInTrace rewriteSpan
    rw [hid]
    simp [hne, hp, hnone]
  exact ⟨hmain, by rw [hmain]; simp⟩

/-- Witness for C9: a lone span whose parent reference "zzz" points
outside the trace (the table holds only "a") gets a null parent. -/
theorem stale_parent_nulled_witness :
    (rewriteInTrace (fun _ _ => "n0") ⟨"tr", none, .good 0, .good 10, some 1000⟩
        [⟨some "a", some "tr", some "zzz", .good 1, .good 2⟩] 500 501
        ⟨some "a", some "tr", some "zzz", .good 1, .good 2⟩).map SpanPayload.parent_span_id
      = some none :=
  (stale_parent_nulled (fun _ _ => "n0") ⟨"tr", none, .good 0, .good 10, some 1000⟩
      [⟨some "a", some "tr", some "zzz", .good 1, .good 2⟩] 500 501
      ⟨some "a", some "tr", some "zzz", .good 1, .good 2⟩ "a" "zzz" rfl rfl rfl
      (by rfl)).1

end WorkshopIngestion

namespace WorkshopIngestion

/-- Helper: membership after a dict key assignment. -/
theorem mem_addKey {x k : String} {l : List String} :
    x ∈ addKey k l ↔ x ∈ l ∨ x = k := by
  unfold addKey
  by_cases hk : k ∈ l
  · rw [if_pos hk]
    exact ⟨Or.inl, fun h => h.elim id fun hx => hx ▸ hk⟩
  · rw [if_neg hk]
    simp

/-- Helper: membership after a dict key removal. -/
theorem mem_removeKey {x k : String} {l : List String} :
    x ∈ removeKey k l ↔ x ∈ l ∧ x ≠ k := by
  simp [removeKey, List.mem_filter, bne_iff_ne]

/-- C7 --- field hygiene: no deny-listed key (`feedback_scores`,
`duration`, `project_id`, `span_count`, `llm_span_count`) survives in a
submitted trace payload, whatever keys the original record carried; every
submitted span payload's key set is a subset of the allow-list and never
contains `duration`. -/
theorem field_hygiene (traceKeys spanKeys : List String) :
    "feedback_scores" ∉ tracePayloadKeys traceKeys ∧
    "duration" ∉ tracePayloadKeys traceKeys ∧
    "project_id" ∉ tracePayloadKeys traceKeys ∧
    "span_count" ∉ tracePayloadKeys traceKeys ∧
    "llm_span_count" ∉ tracePayloadKeys traceKeys ∧
    (∀ k, k ∈ spanPayloadKeys spanKeys → k ∈ allowedKeys) ∧
    "duration" ∉ spanPayloadKeys spanKeys := by
  refine ⟨?_, ?_, ?_, ?_, ?_, ?_, ?_⟩
  · simp [tracePayloadKeys, denyList, mem_addKey, mem_removeKey]
  · simp [tracePayloadKeys, denyList, mem_addKey, mem_removeKey]
  · simp [tracePayloadKeys, denyList, mem_addKey, mem_removeKey]
  · simp [tracePayloadKeys, denyList, mem_addKey, mem_removeKey]
  · simp [tracePayloadKeys, denyList, mem_addKey, mem_removeKey]
  · intro k hk
    have := (List.mem_filter.mp hk).2
    exact of_decide_eq_true this
  · intro hk
    have := (List.mem_filter.mp hk).2
    have hmem : ("duration" : String) ∈ allowedKeys := of_decide_eq_true this
    simp [allowedKeys] at hmem

/-- Witness for C7: concrete original key lists containing deny-listed
keys are cleaned. -/
theorem field_hygiene_witness :
    "duration" ∉ tracePayloadKeys ["id", "duration", "feedback_scores", "input"] ∧
    "duration" ∉ spanPayloadKeys ["id", "duration", "input"] :=
  ⟨(field_hygiene ["id", "duration", "feedback_scores", "input"]
      ["id", "duration", "input"]).2.1,
   (field_hygiene ["id", "duration", "feedback_scores", "input"]
      ["id", "duration", "input"]).2.2.2.2.2.2⟩

end WorkshopIngestion

namespace WorkshopIngestion

/-- Witness for C3: span "a" whose parent reference is span "b" of the
same trace keeps the link through the rewrite. -/
theorem parent_linkage_witness :
    (rewriteInTrace (fun _ _ => "n0") ⟨"tr", none, .good 0, .good 10, some 1000⟩
        [⟨some "a", some "tr", some "b", .good 1, .good 2⟩,
         ⟨some "b", some "tr", none, .good 0, .good 3⟩] 500 501
        ⟨some "a", some "tr", some "b", .good 1, .good 2⟩).map SpanPayload.parent_span_id
      = (rewriteInTrace (fun _ _ => "n0") ⟨"tr", none, .good 0, .good 10, some 1000⟩
        [⟨some "a", some "tr", some "b", .good 1, .good 2⟩,
         ⟨some "b", some "tr", none, .good 0, .good 3⟩] 500 501
        ⟨some "b", some "tr", none, .good 0, .good 3⟩).map SpanPayload.id :=
  (parent_linkage (fun _ _ => "n0") ⟨"tr", none, .good 0, .good 10, some 1000⟩
      [⟨some "a", some "tr", some "b", .good 1, .good 2⟩,
       ⟨some "b", some "tr", none, .good 0, .good 3⟩] 500 501
      ⟨some "a", some "tr", some "b", .good 1, .good 2⟩
      ⟨some "b", some "tr", none, .good 0, .good 3⟩ "a" "b"
      (List.mem_cons_self _ _)
      (List.mem_cons_of_mem _ (List.mem_singleton.mpr rfl))
      rfl rfl rfl rfl rfl rfl rfl).1

end WorkshopIngestion
